import Mathlib

/-!
Verification development for MusicAttack (`src/MusicAttack.py`).

The file embeds the program's core data and operations in Lean:

* the Panel-Attack key validation (`validate_key_config`, and the condition
  under which `load_config` offers to regenerate the config);
* the majority-vote helper `mode` used by calibration;
* the calibration sample-collection loop of `create_config`;
* the live-trigger loop `panel` that turns note names into key dispatches;
* the numeric pitch pipeline of class `IPU`: `freq_to_number`,
  `number_to_freq`, `note_to_note_name`, `discrete_fourier_transform`,
  `get_dominant_pitch`, the sliding sample window, and `calculate_note`.

Machine floats of the source are modelled by real numbers; Python's `round`
(half-to-even) and `int` (truncation toward zero) are modelled explicitly.
A note-name value is `Option String`: `none` stands for the silence
sentinel `0` the source stores in `note_name`, `some s` for a note-name
string.
-/

/-- A note-name value as stored in `IPU.note_name` and handled by
`create_config` and `panel`: `none` is the silence sentinel `0`,
`some s` a note-name string such as "A4". -/
abbrev NoteName := Option String

/-- The pitch-class names, `IPU.NOTE_NAMES` in the source, built exactly
as there by splitting a space-separated string. -/
def NOTE_NAMES : List String :=
  "C C# D D# E F F# G G# A A# B".splitOn (" ")

/-- The Panel Attack keys unsupported by the keyboard backend,
`invalid_keys` in `validate_key_config`. -/
def invalid_keys : List String :=
  ["kp0", "kp1", "kp2", "kp3", "kp4", "kp5", "kp6", "kp7", "kp8", "kp9",
   "kp/", "kp*", "Unplugged Controller", "kp+", "kpenter"]

/-- Embedding of `validate_key_config`: scan the mapping's values in order
and return the first one contained in `invalid_keys` (Python returns `None`
when the loop falls through, modelled by `none`). -/
def validate_key_config (keys : List (String × String)) : Option String :=
  (keys.map Prod.snd).find? (fun k => decide (k ∈ invalid_keys))

/-- Embedding of the condition under which `load_config` offers to recreate
the config: the source evaluates `badkey != "None"` where `badkey` is the
result of `validate_key_config` — Python's `None` compares unequal to the
string "None", so the `none` case yields `true`. -/
def load_config_offers_regen (keys : List (String × String)) : Bool :=
  match validate_key_config keys with
  | none => true
  | some s => decide (s ≠ ("None"))

/-- One step of building the `counts` dictionary in `mode`: Python dicts
preserve insertion order, so the dictionary is an association list; a known
key is incremented in place, an unknown key is appended with count 1. -/
def bump (counts : List (String × Nat)) (item : String) : List (String × Nat) :=
  if counts.any (fun p => decide (p.1 = item)) then
    counts.map (fun p => if p.1 = item then (p.1, p.2 + 1) else p)
  else counts ++ [(item, 1)]

/-- The `counts` dictionary built by the loop in `mode`. -/
def tally (ls : List String) : List (String × Nat) := ls.foldl bump []

/-- Embedding of Python's `max(counts.values())` over the counts list. -/
def max_values (counts : List (String × Nat)) : Nat :=
  (counts.map Prod.snd).foldl Nat.max 0

/-- Embedding of `mode`: keep the keys whose count equals the maximal count
(in dictionary iteration order) and return the first one; the empty-list
case, on which Python would raise, is modelled by `none`. -/
def mode (ls : List String) : Option String :=
  let counts := tally ls
  ((counts.filter (fun p => decide (p.2 = max_values counts))).head?).map Prod.fst

/-- The note names kept by first occurrence, in order: the keys of the
`counts` dictionary that `tally` builds. -/
def firstOccs : List String → List String
  | [] => []
  | x :: xs => x :: (firstOccs xs).filter (fun y => decide (y ≠ x))

/-- Embedding of the per-slot sample-collection loop of `create_config`
(`recorded_notes` / `i`): consume note names from the stream while the
index is below 15, writing each at position `i`; a silence sample resets
`i` to 0, a note sample advances it.  Returns the final buffer together
with the consumed prefix of the stream, or `none` when the stream runs out
before a slot completes (the Python loop would keep waiting). -/
def calib_collect (i : Nat) (buf : List NoteName) (s : List NoteName) :
    Option (List NoteName × List NoteName) :=
  if 15 ≤ i then some (buf, [])
  else
    match s with
    | [] => none
    | nm :: rest =>
      match nm with
      | none => (calib_collect 0 (buf.set i none) rest).map
          (fun r => (r.1, none :: r.2))
      | some x => (calib_collect (i + 1) (buf.set i (some x)) rest).map
          (fun r => (r.1, some x :: r.2))
termination_by structural s

/-- The initial `recorded_notes` buffer of `create_config`: fifteen silence
sentinels. -/
def calib_init : List NoteName := List.replicate 15 none

/-- Dictionary lookup `config["keys"][note_name]` in `panel`: the silence
sentinel `0` is never a key of the string-keyed mapping, so it fails
(`KeyError`), and a note name is looked up among the bound notes. -/
def config_lookup (config : List (String × String)) (nm : NoteName) : Option String :=
  match nm with
  | none => none
  | some s => (config.find? (fun p => decide (p.1 = s))).map Prod.snd

/-- One iteration of the `panel` loop, given the `is_pressed` flag and the
tick's note name: on a successful lookup the key is sent only when
`is_pressed` is false and the flag becomes true; on `KeyError` the flag
becomes false and nothing is sent.  Returns the new flag and the
dispatched key, if any. -/
def panel_step (config : List (String × String)) (is_pressed : Bool)
    (nm : NoteName) : Bool × Option String :=
  match config_lookup config nm with
  | some k => (true, if is_pressed then none else some k)
  | none => (false, none)

/-- The `panel` loop run over a stream of per-tick note names from a given
`is_pressed` flag, listing the dispatch (if any) of every tick. -/
def panel_run (config : List (String × String)) :
    Bool → List NoteName → List (Option String)
  | _, [] => []
  | pressed, nm :: rest =>
    let s := panel_step config pressed nm
    s.2 :: panel_run config s.1 rest

/-- The per-tick dispatches of `panel` on a note-name stream: the loop
starts with `is_pressed = False`. -/
def panel_dispatches (config : List (String × String)) (nms : List NoteName) :
    List (Option String) :=
  panel_run config false nms

/-- Modelled from the spec (section 4.5, for comparison with `panel`): the
live-trigger state machine with states `Idle` (`none`) and `Holding note`
(`some note`); silence moves to `Idle`, a repeated note fires nothing, a
new note moves to holding it and fires one dispatch for it. -/
def stab_step (config : List (String × String)) (held : Option String)
    (nm : NoteName) : Option String × Option String :=
  match nm with
  | none => (none, none)
  | some s =>
    if held = some s then (held, none)
    else (some s, config_lookup config (some s))

/-- Modelled from the spec: the live-trigger state machine run over a
stream of note names, listing the dispatch (if any) of every tick. -/
def stab_run (config : List (String × String)) :
    Option String → List NoteName → List (Option String)
  | _, [] => []
  | held, nm :: rest =>
    let s := stab_step config held nm
    s.2 :: stab_run config s.1 rest

/-- Modelled from the spec: dispatches of the spec's stabilizer starting
from `Idle`. -/
def stab_dispatches (config : List (String × String)) (nms : List NoteName) :
    List (Option String) :=
  stab_run config none nms

/-! ### Helper lemmas -/

theorem take_set_succ (l : List NoteName) (i : Nat) (a : NoteName)
    (h : i < l.length) : (l.set i a).take (i + 1) = l.take i ++ [a] := by
  rw [List.set_eq_take_cons_drop a h]
  have hlen : (l.take i).length = i := List.length_take_of_le (le_of_lt h)
  calc (l.take i ++ a :: l.drop (i + 1)).take (i + 1)
      = (l.take i ++ a :: l.drop (i + 1)).take ((l.take i).length + 1) := by rw [hlen]
    _ = l.take i ++ (a :: l.drop (i + 1)).take 1 := List.take_append 1
    _ = l.take i ++ [a] := by simp

theorem calib_collect_stop (i : Nat) (buf : List NoteName) (s : List NoteName)
    (h : 15 ≤ i) : calib_collect i buf s = some (buf, []) := by
  rw [calib_collect.eq_def, if_pos h]

theorem calib_collect_silence (i : Nat) (buf : List NoteName) (rest : List NoteName)
    (h : ¬ 15 ≤ i) :
    calib_collect i buf (none :: rest) =
      (calib_collect 0 (buf.set i none) rest).map (fun r => (r.1, none :: r.2)) := by
  rw [calib_collect.eq_def, if_neg h]

theorem calib_collect_note (i : Nat) (buf : List NoteName) (x : String)
    (rest : List NoteName) (h : ¬ 15 ≤ i) :
    calib_collect i buf (some x :: rest) =
      (calib_collect (i + 1) (buf.set i (some x)) rest).map
        (fun r => (r.1, some x :: r.2)) := by
  rw [calib_collect.eq_def, if_neg h]

theorem calib_collect_empty (i : Nat) (buf : List NoteName) (h : ¬ 15 ≤ i) :
    calib_collect i buf [] = none := by
  rw [calib_collect.eq_def, if_neg h]

theorem calib_collect_spec :
    ∀ (s : List NoteName) (i : Nat) (buf : List NoteName),
      i ≤ 15 → buf.length = 15 →
      ∀ {buf' consumed : List NoteName},
        calib_collect i buf s = some (buf', consumed) →
        ∃ pre run, consumed = pre ++ run ∧ (∀ x ∈ run, x ≠ none) ∧
          ((pre = [] ∧ buf' = buf.take i ++ run ∧ i + run.length = 15) ∨
           (pre.getLast? = some none ∧ run.length = 15 ∧ buf' = run)) := by
  intro s
  induction s with
  | nil =>
    intro i buf hi hlen buf' consumed h
    by_cases h15 : 15 ≤ i
    · rw [calib_collect_stop i buf _ h15] at h
      have hb : buf = buf' ∧ ([] : List NoteName) = consumed := by
        simpa using h
      refine ⟨[], [], by simp [← hb.2], by simp, Or.inl ⟨rfl, ?_, by simp; omega⟩⟩
      have hie : i = 15 := le_antisymm hi h15
      simp [← hb.1, hie, ← hlen]
    · rw [calib_collect_empty i buf h15] at h
      exact absurd h (by simp)
  | cons nm rest ih =>
    intro i buf hi hlen buf' consumed h
    by_cases h15 : 15 ≤ i
    · rw [calib_collect_stop i buf _ h15] at h
      have hb : buf = buf' ∧ ([] : List NoteName) = consumed := by
        simpa using h
      refine ⟨[], [], by simp [← hb.2], by simp, Or.inl ⟨rfl, ?_, by simp; omega⟩⟩
      have hie : i = 15 := le_antisymm hi h15
      simp [← hb.1, hie, ← hlen]
    · have hilt : i < 15 := by omega
      cases nm with
      | none =>
        rw [calib_collect_silence i buf rest h15] at h
        rw [Option.map_eq_some'] at h
        obtain ⟨⟨b, c⟩, hrec, heq⟩ := h
        have hbc : b = buf' ∧ none :: c = consumed := by
          constructor
          · exact congrArg Prod.fst heq
          · exact congrArg Prod.snd heq
        obtain ⟨pre, run, hcons, hrun, hcase⟩ :=
          ih 0 (buf.set i none) (by omega) (by simp [hlen]) hrec
        rcases hcase with ⟨hpre, hbuf, hruns⟩ | ⟨hlast, hlen15, hbuf⟩
        · refine ⟨[none], run, ?_, hrun, Or.inr ⟨rfl, by omega, ?_⟩⟩
          · rw [← hbc.2, hcons, hpre]; simp
          · rw [← hbc.1, hbuf]; simp
        · have hpne : pre ≠ [] := by
            intro hp; rw [hp] at hlast; simp at hlast
          refine ⟨none :: pre, run, ?_, hrun,
            Or.inr ⟨?_, hlen15, by rw [← hbc.1, hbuf]⟩⟩
          · rw [← hbc.2, hcons]; simp
          · rw [List.getLast?_cons]
            cases hgl : pre.getLast? with
            | none => rw [hgl] at hlast; exact absurd hlast (by simp)
            | some v =>
              rw [hgl] at hlast
              have hv : v = none := by simpa using hlast
              simp [hv]
      | some x =>
        rw [calib_collect_note i buf x rest h15] at h
        rw [Option.map_eq_some'] at h
        obtain ⟨⟨b, c⟩, hrec, heq⟩ := h
        have hbc : b = buf' ∧ some x :: c = consumed := by
          constructor
          · exact congrArg Prod.fst heq
          · exact congrArg Prod.snd heq
        obtain ⟨pre, run, hcons, hrun, hcase⟩ :=
          ih (i + 1) (buf.set i (some x)) (by omega) (by simp [hlen]) hrec
        rcases hcase with ⟨hpre, hbuf, hruns⟩ | ⟨hlast, hlen15, hbuf⟩
        · refine ⟨[], some x :: run, ?_, ?_, Or.inl ⟨rfl, ?_, ?_⟩⟩
          · rw [← hbc.2, hcons, hpre]; simp
          · intro y hy
            rcases List.mem_cons.mp hy with h1 | h2
            · simp [h1]
            · exact hrun y h2
          · rw [← hbc.1, hbuf, take_set_succ buf i (some x) (by omega)]
            simp
          · simp only [List.length_cons]
            omega
        · have hpne : pre ≠ [] := by
            intro hp; rw [hp] at hlast; simp at hlast
          refine ⟨some x :: pre, run, ?_, hrun,
            Or.inr ⟨?_, hlen15, by rw [← hbc.1, hbuf]⟩⟩
          · rw [← hbc.2, hcons]; simp
          · rw [List.getLast?_cons]
            cases hgl : pre.getLast? with
            | none => rw [hgl] at hlast; exact absurd hlast (by simp)
            | some v =>
              rw [hgl] at hlast
              have hv : v = none := by simpa using hlast
              simp [hv]

theorem panel_run_getD (config : List (String × String)) :
    ∀ (nms : List NoteName) (p : Bool) (i : Nat), i < nms.length →
      (panel_run config p nms).getD i none =
        (match config_lookup config (nms.getD i none) with
         | some k =>
             if (if i = 0 then p
                 else (config_lookup config (nms.getD (i - 1) none)).isSome)
             then none else some k
         | none => none) := by
  intro nms
  induction nms with
  | nil => intro p i hi; simp at hi
  | cons a rest ih =>
    intro p i hi
    match i with
    | 0 =>
      simp only [panel_run, panel_step, List.getD_cons_zero, if_pos rfl]
      cases h : config_lookup config a with
      | none => simp [h]
      | some k =>
        simp only [h]
        cases p <;> simp
    | Nat.succ j =>
      have hj : j < rest.length := by
        simp only [List.length_cons] at hi; omega
      have hstep : (panel_run config p (a :: rest)).getD (j + 1) none =
          (panel_run config (panel_step config p a).1 rest).getD j none := by
        simp [panel_run]
      rw [hstep, ih (panel_step config p a).1 j hj]
      have hpressed : (panel_step config p a).1 = (config_lookup config a).isSome := by
        unfold panel_step
        cases h : config_lookup config a <;> simp
      match j with
      | 0 =>
        simp only [List.getD_cons_succ, List.getD_cons_zero, if_pos rfl,
          Nat.add_sub_cancel]
        rw [hpressed]
        simp
      | Nat.succ j2 =>
        simp only [List.getD_cons_succ, Nat.add_sub_cancel]
        have h1 : (j2 + 1 : Nat) ≠ 0 := by omega
        have h2 : (j2 + 1 + 1 : Nat) ≠ 0 := by omega
        rw [if_neg h1, if_neg h2]
        have h3 : j2 + 1 - 1 = j2 := by omega
        rw [h3]
        rfl

/-- Claim C1 (corrected): the source's live-trigger loop `panel` does not
track which note is held — only the boolean `is_pressed` — so a dispatch
fires on a tick exactly when the tick's note name is bound in the mapping
and the previous tick's note name (if there is one) was not bound (silence,
an unbound note, or the start of the stream); the dispatched key is the one
bound to the tick's note.  In particular a direct transition between two
different bound notes fires nothing for the second note. -/
theorem C1_amended_live_trigger (config : List (String × String))
    (nms : List NoteName) (i : Nat) (hi : i < nms.length) :
    (panel_dispatches config nms).getD i none =
      (match config_lookup config (nms.getD i none) with
       | some k =>
           if i = 0 then some k
           else if config_lookup config (nms.getD (i - 1) none) = none then some k
           else none
       | none => none) := by
  rw [panel_dispatches, panel_run_getD config nms false i hi]
  cases h : config_lookup config (nms.getD i none) with
  | none => rfl
  | some k =>
    by_cases h0 : i = 0
    · simp [h0]
    · simp only [if_neg h0]
      cases hprev : config_lookup config (nms.getD (i - 1) none) with
      | none => simp [hprev]
      | some k2 => simp [hprev]

/-- Witness for C1: on the one-element stream of a bound note the first
tick dispatches the bound key. -/
theorem C1_amended_witness :
    (0 : Nat) < ([some ("A4")] : List NoteName).length ∧
    (panel_dispatches [("A4", "x")] [some ("A4")]).getD 0 none = some ("x") := by
  refine ⟨by simp, ?_⟩
  have h := C1_amended_live_trigger [("A4", "x")] [some ("A4")] 0 (by simp)
  simpa using h

/-- Counterexample for C1 as stated: on the stream `[A4, B4]` with both
notes bound, the second tick carries a non-silence note different from the
held one, and the spec's stabilizer fires a dispatch for it, but the
source's `panel` loop fires nothing on that tick. -/
theorem C1_counterexample :
    stab_dispatches [("A4", "x"), ("B4", "z")] [some ("A4"), some ("B4")]
        = [some ("x"), some ("z")] ∧
    panel_dispatches [("A4", "x"), ("B4", "z")] [some ("A4"), some ("B4")]
        = [some ("x"), none] := ⟨rfl, rfl⟩

/-- Claim C2 (code bug): `load_config` compares the result of
`validate_key_config` against the string "None" instead of Python's `None`,
so the regeneration offer is made for every mapping — even one whose
values are all supported, on which `validate_key_config` reports no invalid
key.  (`main` performs the same check correctly with `badkey != None`.) -/
theorem C2_offers_regen_always :
    validate_key_config [("A4", "up")] = none ∧
    load_config_offers_regen [("A4", "up")] = true ∧
    ∀ keys, load_config_offers_regen keys = true := by
  refine ⟨rfl, rfl, fun keys => ?_⟩
  unfold load_config_offers_regen
  cases h : validate_key_config keys with
  | none => rfl
  | some s =>
    have hs := List.find?_some h
    have hmem : s ∈ invalid_keys := by simpa using hs
    simp only [decide_eq_true_eq]
    fin_cases hmem <;> simp

/-- Claim C3 (confirmed): with `A4` bound to a key, the stream
`[A4, A4, A4, Silence, A4]` produces a dispatch on the first and the last
tick only — exactly two dispatches of the bound key. -/
theorem C3_live_trigger_example :
    panel_dispatches [("A4", "x")] [some ("A4"), some ("A4"), some ("A4"), none, some ("A4")]
        = [some ("x"), none, none, none, some ("x")] ∧
    (panel_dispatches [("A4", "x")] [some ("A4"), some ("A4"), some ("A4"), none, some ("A4")]).filterMap id
        = ["x", "x"] := ⟨rfl, rfl⟩

/-- Claim C4 (confirmed): whenever the calibration collection loop
completes on a stream, the consumed prefix ends with an unbroken run of 15
non-silence samples, the final buffer is exactly that run, and everything
before the run (if anything) ends with the silence sample that caused the
last reset; moreover a silence sample resets the collection index to 0. -/
theorem C4_calibration_buffer (s : List NoteName) (buf' consumed : List NoteName)
    (h : calib_collect 0 calib_init s = some (buf', consumed)) :
    (∃ pre run, consumed = pre ++ run ∧ run.length = 15 ∧
      (∀ x ∈ run, x ≠ none) ∧ buf' = run ∧
      (pre = [] ∨ pre.getLast? = some none)) ∧
    (∀ (i : Nat) (buf rest : List NoteName), i < 15 →
      calib_collect i buf (none :: rest) =
        (calib_collect 0 (buf.set i none) rest).map (fun r => (r.1, none :: r.2))) := by
  constructor
  · obtain ⟨pre, run, hc, hrun, hcase⟩ :=
      calib_collect_spec s 0 calib_init (by omega) (by simp [calib_init]) h
    rcases hcase with ⟨hpre, hbuf, hlen⟩ | ⟨hlast, hlen, hbuf⟩
    · refine ⟨pre, run, hc, by omega, hrun, by simpa using hbuf, Or.inl hpre⟩
    · exact ⟨pre, run, hc, hlen, hrun, hbuf, Or.inr hlast⟩
  · intro i buf rest hilt
    exact calib_collect_silence i buf rest (by omega)

/-- Witness for C4: the stream `[A4, A4, Silence]` followed by fifteen `A4`
samples completes a slot, consuming everything, with the buffer equal to
the final fifteen `A4` samples. -/
theorem C4_witness :
    calib_collect 0 calib_init
        ([some ("A4"), some ("A4"), none] ++ List.replicate 15 (some ("A4")))
      = some (List.replicate 15 (some ("A4")),
          [some ("A4"), some ("A4"), none] ++ List.replicate 15 (some ("A4"))) ∧
    ((∃ pre run,
        ([some ("A4"), some ("A4"), none] ++ List.replicate 15 (some ("A4")) : List NoteName)
            = pre ++ run ∧
        run.length = 15 ∧ (∀ x ∈ run, x ≠ none) ∧
        List.replicate 15 (some ("A4")) = run ∧
        (pre = [] ∨ pre.getLast? = some none)) ∧
     (∀ (i : Nat) (buf rest : List NoteName), i < 15 →
        calib_collect i buf (none :: rest) =
          (calib_collect 0 (buf.set i none) rest).map (fun r => (r.1, none :: r.2)))) :=
  ⟨by decide,
   C4_calibration_buffer
     ([some ("A4"), some ("A4"), none] ++ List.replicate 15 (some ("A4")))
     (List.replicate 15 (some ("A4")))
     ([some ("A4"), some ("A4"), none] ++ List.replicate 15 (some ("A4")))
     (by decide)⟩

theorem tally_concat (ls : List String) (x : String) :
    tally (ls ++ [x]) = bump (tally ls) x := by
  simp [tally, List.foldl_concat]

theorem mem_firstOccs (x : String) (ls : List String) :
    x ∈ firstOccs ls ↔ x ∈ ls := by
  induction ls with
  | nil => simp [firstOccs]
  | cons a xs ih =>
    simp only [firstOccs, List.mem_cons, List.mem_filter, decide_eq_true_eq]
    constructor
    · rintro (rfl | ⟨hx, hne⟩)
      · exact Or.inl rfl
      · exact Or.inr (ih.mp hx)
    · rintro (rfl | hx)
      · exact Or.inl rfl
      · by_cases hxa : x = a
        · exact Or.inl hxa
        · exact Or.inr ⟨ih.mpr hx, hxa⟩

theorem firstOccs_concat (ls : List String) (x : String) :
    firstOccs (ls ++ [x]) =
      if x ∈ ls then firstOccs ls else firstOccs ls ++ [x] := by
  induction ls with
  | nil => simp [firstOccs]
  | cons a xs ih =>
    have hstep : firstOccs ((a :: xs) ++ [x]) =
        a :: (firstOccs (xs ++ [x])).filter (fun y => decide (y ≠ a)) := rfl
    rw [hstep, ih]
    by_cases hx : x ∈ xs
    · rw [if_pos hx, if_pos (List.mem_cons.mpr (Or.inr hx))]
      rfl
    · rw [if_neg hx]
      by_cases hxa : x = a
      · rw [if_pos (by simp [hxa]), List.filter_append]
        have hfx : List.filter (fun y => decide (y ≠ a)) [x] = [] := by
          simp [hxa]
        rw [hfx, List.append_nil]
        rfl
      · rw [if_neg (by simp [hxa, hx]), List.filter_append]
        have hfx : List.filter (fun y => decide (y ≠ a)) [x] = [x] := by
          simp [hxa]
        rw [hfx]
        rfl

theorem count_concat (ls : List String) (x y : String) :
    (ls ++ [x]).count y = ls.count y + if y = x then 1 else 0 := by
  rw [List.count_append, List.count_singleton]
  by_cases hyx : y = x
  · subst hyx
    simp
  · have hne : ¬((x == y) = true) := by
      simp only [beq_iff_eq]
      exact fun h => hyx h.symm
    rw [if_neg hne, if_neg hyx]

theorem tally_eq_map (ls : List String) :
    tally ls = (firstOccs ls).map (fun y => (y, ls.count y)) := by
  induction ls using List.reverseRecOn with
  | nil => rfl
  | append_singleton ls x ih =>
    rw [tally_concat, ih, firstOccs_concat]
    unfold bump
    by_cases hx : x ∈ ls
    · have hc : (((firstOccs ls).map (fun y => (y, ls.count y))).any
          (fun p => decide (p.1 = x))) = true := by
        rw [List.any_eq_true]
        exact ⟨(x, ls.count x),
          List.mem_map.mpr ⟨x, (mem_firstOccs x ls).mpr hx, rfl⟩, by simp⟩
      rw [if_pos hc, if_pos hx, List.map_map]
      apply List.map_congr_left
      intro y hy
      by_cases hyx : y = x
      · subst hyx
        show (if y = y then (y, ls.count y + 1) else (y, ls.count y))
            = (y, (ls ++ [y]).count y)
        rw [if_pos rfl, count_concat, if_pos rfl]
      · show (if y = x then (y, ls.count y + 1) else (y, ls.count y))
            = (y, (ls ++ [x]).count y)
        rw [if_neg hyx, count_concat, if_neg hyx, Nat.add_zero]
    · have hc : (((firstOccs ls).map (fun y => (y, ls.count y))).any
          (fun p => decide (p.1 = x))) = false := by
        rw [Bool.eq_false_iff]
        intro hany
        rw [List.any_eq_true] at hany
        obtain ⟨p, hp, hpx⟩ := hany
        obtain ⟨y, hy, rfl⟩ := List.mem_map.mp hp
        have hyx : y = x := by simpa using hpx
        exact hx (hyx ▸ (mem_firstOccs y ls).mp hy)
      rw [if_neg (by simp [hc]), if_neg hx, List.map_append]
      have h1 : (firstOccs ls).map (fun y => (y, ls.count y))
          = (firstOccs ls).map (fun y => (y, (ls ++ [x]).count y)) := by
        apply List.map_congr_left
        intro y hy
        have hyls : y ∈ ls := (mem_firstOccs y ls).mp hy
        have hyx : y ≠ x := fun h => hx (h ▸ hyls)
        rw [count_concat, if_neg hyx, Nat.add_zero]
      have h2 : ([(x, 1)] : List (String × Nat))
          = [x].map (fun y => (y, (ls ++ [x]).count y)) := by
        have hcx : (ls ++ [x]).count x = 1 := by
          rw [count_concat, List.count_eq_zero.mpr hx, if_pos rfl]
        show [(x, 1)] = [(x, (ls ++ [x]).count x)]
        rw [hcx]
      rw [h1, h2]

theorem foldl_max_spec (l : List Nat) : ∀ (a : Nat),
    a ≤ l.foldl Nat.max a ∧ (∀ x ∈ l, x ≤ l.foldl Nat.max a) ∧
    (l.foldl Nat.max a = a ∨ l.foldl Nat.max a ∈ l) := by
  induction l with
  | nil => intro a; simp
  | cons b xs ih =>
    intro a
    simp only [List.foldl_cons]
    obtain ⟨h1, h2, h3⟩ := ih (Nat.max a b)
    refine ⟨le_trans (Nat.le_max_left a b) h1, ?_, ?_⟩
    · intro x hx
      rcases List.mem_cons.mp hx with rfl | hx2
      · exact le_trans (Nat.le_max_right a x) h1
      · exact h2 x hx2
    · rcases h3 with heq | hmem
      · rcases Nat.le_total a b with hab | hab
        · exact Or.inr (List.mem_cons.mpr
            (Or.inl (heq.trans (Nat.max_eq_right hab))))
        · exact Or.inl (heq.trans (Nat.max_eq_left hab))
      · exact Or.inr (List.mem_cons.mpr (Or.inr hmem))

theorem head?_filter_eq_find? (q : String → Bool) (l : List String) :
    (l.filter q).head? = l.find? q := by
  induction l with
  | nil => rfl
  | cons a xs ih =>
    by_cases hq : q a
    · rw [List.filter_cons_of_pos hq, List.find?_cons_of_pos _ hq]
      rfl
    · rw [List.filter_cons_of_neg hq, List.find?_cons_of_neg _ hq, ih]

theorem find?_filter_ne (l : List String) (p : String → Bool) (x : String)
    (hpx : p x = false) :
    (l.filter (fun y => decide (y ≠ x))).find? p = l.find? p := by
  induction l with
  | nil => rfl
  | cons a xs ih =>
    by_cases hax : a = x
    · subst hax
      rw [List.filter_cons_of_neg (by simp), ih,
        List.find?_cons_of_neg _ (by simp [hpx])]
    · rw [List.filter_cons_of_pos (by simp [hax])]
      by_cases hpa : p a
      · rw [List.find?_cons_of_pos _ hpa, List.find?_cons_of_pos _ hpa]
      · rw [List.find?_cons_of_neg _ hpa, List.find?_cons_of_neg _ hpa, ih]

theorem find?_firstOccs (p : String → Bool) (ls : List String) :
    (firstOccs ls).find? p = ls.find? p := by
  induction ls with
  | nil => rfl
  | cons a xs ih =>
    have hstep : firstOccs (a :: xs)
        = a :: (firstOccs xs).filter (fun y => decide (y ≠ a)) := rfl
    rw [hstep]
    by_cases hpa : p a
    · rw [List.find?_cons_of_pos _ hpa, List.find?_cons_of_pos _ hpa]
    · rw [List.find?_cons_of_neg _ hpa, List.find?_cons_of_neg _ hpa,
        find?_filter_ne _ p a (by simpa using hpa), ih]

theorem find?_decomp (p : String → Bool) :
    ∀ (l : List String) (m : String), l.find? p = some m →
      ∃ pre post, l = pre ++ m :: post ∧ ∀ x ∈ pre, p x = false := by
  intro l
  induction l with
  | nil => intro m h; simp at h
  | cons a xs ih =>
    intro m h
    by_cases hpa : p a
    · have hma : a = m := by
        rw [List.find?_cons_of_pos _ hpa] at h
        simpa using h
      exact ⟨[], xs, by rw [hma]; rfl, by simp⟩
    · rw [List.find?_cons_of_neg _ hpa] at h
      obtain ⟨pre, post, hsplit, hpre⟩ := ih m h
      refine ⟨a :: pre, post, by rw [hsplit]; rfl, ?_⟩
      intro x hx
      rcases List.mem_cons.mp hx with rfl | hx2
      · simpa using hpa
      · exact hpre x hx2

theorem mode_eq_find (ls : List String) :
    mode ls = ls.find? (fun x => decide (ls.count x = max_values (tally ls))) := by
  generalize hM : max_values (tally ls) = M
  show (((tally ls).filter (fun p => decide (p.2 = max_values (tally ls)))).head?).map
      Prod.fst = _
  rw [hM, tally_eq_map ls, List.filter_map, List.head?_map, head?_filter_eq_find?]
  have hcomp : ((fun p : String × Nat => decide (p.2 = M)) ∘
      (fun y => (y, ls.count y))) = fun x => decide (ls.count x = M) := by
    funext y
    simp [Function.comp]
  rw [hcomp, find?_firstOccs]
  cases h : ls.find? (fun x => decide (ls.count x = M)) with
  | none => rfl
  | some y => simp

/-- Claim C5 (confirmed): on every non-empty list, `mode` returns an
element of the list of maximal occurrence count; every element occurring
strictly before the returned element's first occurrence has a strictly
smaller count, so ties resolve to the tied element first encountered in
the dictionary's iteration order.  In particular 7 `A4` and 8 `B4` give
`B4`, and the tie 7 `A4`, 7 `B4`, 1 `C4` gives `A4`. -/
theorem C5_mode_majority :
    (∀ ls : List String, ls ≠ [] →
      ∃ m pre post, mode ls = some m ∧ ls = pre ++ m :: post ∧
        (∀ x, ls.count x ≤ ls.count m) ∧
        (∀ x ∈ pre, ls.count x < ls.count m)) ∧
    mode (List.replicate 7 ("A4") ++ List.replicate 8 ("B4")) = some ("B4") ∧
    mode (List.replicate 7 ("A4") ++ List.replicate 7 ("B4") ++ [("C4")])
        = some ("A4") := by
  refine ⟨?_, by decide, by decide⟩
  intro ls hne
  have hub : ∀ x ∈ ls, ls.count x ≤ max_values (tally ls) := by
    intro x hx
    have hx' : ls.count x ∈ (tally ls).map Prod.snd := by
      rw [tally_eq_map, List.map_map]
      exact List.mem_map.mpr ⟨x, (mem_firstOccs x ls).mpr hx, rfl⟩
    exact (foldl_max_spec ((tally ls).map Prod.snd) 0).2.1 _ hx'
  have hattain : ∃ y ∈ ls, ls.count y = max_values (tally ls) := by
    obtain ⟨h1, h2, h3⟩ := foldl_max_spec ((tally ls).map Prod.snd) 0
    rcases h3 with h0 | hmem
    · obtain ⟨a, as, rfl⟩ := List.exists_cons_of_ne_nil hne
      have hpos : 0 < (a :: as).count a :=
        List.count_pos_iff.mpr (List.mem_cons_self a as)
      have hle : (a :: as).count a ≤ max_values (tally (a :: as)) :=
        hub a (List.mem_cons_self a as)
      have hM0 : max_values (tally (a :: as)) = 0 := h0
      omega
    · rw [tally_eq_map, List.map_map] at hmem
      obtain ⟨y, hy, hyM⟩ := List.mem_map.mp hmem
      refine ⟨y, (mem_firstOccs y ls).mp hy, ?_⟩
      rw [max_values, tally_eq_map, List.map_map]
      exact hyM
  obtain ⟨y, hyls, hyM⟩ := hattain
  have hsome : (ls.find? (fun x =>
      decide (ls.count x = max_values (tally ls)))).isSome := by
    rw [List.find?_isSome]
    exact ⟨y, hyls, by simp [hyM]⟩
  obtain ⟨m, hm⟩ := Option.isSome_iff_exists.mp hsome
  have hqm : ls.count m = max_values (tally ls) := by
    simpa using List.find?_some hm
  obtain ⟨pre, post, hsplit, hpre⟩ := find?_decomp _ ls m hm
  have hmem_m : m ∈ ls := by
    rw [hsplit]
    exact List.mem_append.mpr (Or.inr (List.mem_cons_self m post))
  refine ⟨m, pre, post, ?_, hsplit, ?_, ?_⟩
  · rw [mode_eq_find]
    exact hm
  · intro x
    by_cases hx : x ∈ ls
    · rw [hqm]
      exact hub x hx
    · rw [List.count_eq_zero.mpr hx]
      exact Nat.zero_le _
  · intro x hxpre
    have hqx : ¬ ls.count x = max_values (tally ls) := by
      simpa using hpre x hxpre
    have hxls : x ∈ ls := by
      rw [hsplit]
      exact List.mem_append.mpr (Or.inl hxpre)
    have hle : ls.count x ≤ max_values (tally ls) := hub x hxls
    rw [hqm]
    omega

/-- Witness for C5: on the one-element list the mode is its element. -/
theorem C5_witness :
    (["A4"] : List String) ≠ [] ∧
    (∃ m pre post, mode ["A4"] = some m ∧ (["A4"] : List String) = pre ++ m :: post ∧
      (∀ x, (["A4"] : List String).count x ≤ (["A4"] : List String).count m) ∧
      (∀ x ∈ pre, (["A4"] : List String).count x < (["A4"] : List String).count m)) :=
  ⟨by simp, C5_mode_majority.1 (["A4"]) (by simp)⟩

/-! ### The numeric pitch pipeline of class IPU -/

noncomputable section

/-- `IPU.DEFAULT_FSAMP`: the sampling rate, 48000 Hz. -/
def DEFAULT_FSAMP : ℝ := 48000

/-- `IPU.DEFAULT_FRAME_SIZE`: samples per captured frame. -/
def DEFAULT_FRAME_SIZE : Nat := 800

/-- `IPU.freq_to_number`: `12 * log2(f / 440) + 49`. -/
def freq_to_number (f : ℝ) : ℝ := 12 * Real.logb 2 (f / 440) + 49

/-- `IPU.number_to_freq`: `440 * 2 ** ((n - 49) / 12)`. -/
def number_to_freq (n : ℝ) : ℝ := 440 * (2 : ℝ) ^ ((n - 49) / 12)

/-- Python's `round` on a real value: round to nearest, ties to even. -/
def pyround (x : ℝ) : ℤ :=
  if Int.fract x = 1 / 2 then (if Even ⌊x⌋ then ⌊x⌋ else ⌊x⌋ + 1)
  else round x

/-- Python's `int` on a real value: truncation toward zero. -/
def pyint (x : ℝ) : ℤ := if 0 ≤ x then ⌊x⌋ else ⌈x⌉

/-- `IPU.note_to_note_name`:
`NOTE_NAMES[(n - 4) % 12] + str(int((n + 8) / 12))`, with Python's `%`
(sign of the divisor, here Euclidean) and `int` (truncation). -/
def note_to_note_name (n : ℤ) : String :=
  NOTE_NAMES.getD ((n - 4).emod 12).toNat ("")
    ++ toString (pyint (((n : ℝ) + 8) / 12))

/-- `IPU.fourier_array`: `(-2π / fsamp) * arange(samples_per_fft)`, as a
function of the sample index. -/
def fourier_array (i : Nat) : ℝ := -2 * Real.pi / DEFAULT_FSAMP * (i : ℝ)

/-- `IPU.discrete_fourier_transform` on a sample window:
`x = Σ samples·cos(f·phase)`, `y = Σ samples·sin(f·phase)`,
result `sqrt(x·x + y·y) / samples.size`. -/
def discrete_fourier_transform (f : ℝ) (samples : List ℝ) : ℝ :=
  Real.sqrt
      ((∑ i in Finset.range samples.length,
          samples.getD i 0 * Real.cos (f * fourier_array i)) *
        (∑ i in Finset.range samples.length,
          samples.getD i 0 * Real.cos (f * fourier_array i)) +
       (∑ i in Finset.range samples.length,
          samples.getD i 0 * Real.sin (f * fourier_array i)) *
        (∑ i in Finset.range samples.length,
          samples.getD i 0 * Real.sin (f * fourier_array i)))
    / (samples.length : ℝ)

/-- The response formula as the specification states it:
`sqrt(x² + y²) / window_size` with `x = Σ sample[i]·cos(phase[i]·f)` and
`y = Σ sample[i]·sin(phase[i]·f)`. -/
def response_spec (f : ℝ) (samples : List ℝ) : ℝ :=
  Real.sqrt
      ((∑ i in Finset.range samples.length,
          samples.getD i 0 * Real.cos (fourier_array i * f)) ^ 2 +
       (∑ i in Finset.range samples.length,
          samples.getD i 0 * Real.sin (fourier_array i * f)) ^ 2)
    / (samples.length : ℝ)

/-- `IPU.piano_frequencies`: `number_to_freq(i)` for `i` in `1..88`. -/
def piano_frequencies : List ℝ :=
  (List.range 88).map (fun i : Nat => number_to_freq ((i : ℝ) + 1))

/-- One comparison step of `np.argmax`: a strictly greater value replaces
the current best index, so ties keep the earlier index. -/
def argmax_step (l : List ℝ) (best i : Nat) : Nat :=
  if l.getD best 0 < l.getD i 0 then i else best

/-- `np.argmax`: the index of the first maximal element. -/
def argmaxList (l : List ℝ) : Nat :=
  (List.range l.length).foldl (argmax_step l) 0

/-- `IPU.get_dominant_pitch`: evaluate the response at each of the 88
piano frequencies and return the frequency of maximal response with that
response as amplitude. -/
def get_dominant_pitch (samples : List ℝ) : ℝ × ℝ :=
  let response := piano_frequencies.map
    (fun f => discrete_fourier_transform f samples)
  (piano_frequencies.getD (argmaxList response) 0,
   response.getD (argmaxList response) 0)

/-- The mutable fields of class `IPU` that `calculate_note` reads or
writes. -/
structure IPUState where
  buf : List ℝ
  dominant_frequency : ℝ
  amplitude : ℝ
  note : ℤ
  note_name : NoteName

/-- The sliding audio window at `IPU.start`: all-zero samples of length
`frame_size * frames_per_window`. -/
def init_buf (fs fpw : Nat) : List ℝ := List.replicate (fs * fpw) 0

/-- The window update in `calculate_note`: drop the oldest `fs` samples
and append the new frame at the tail
(`buf[:-frame_size] = buf[frame_size:]; buf[-frame_size:] = frame`). -/
def push_frame (fs : Nat) (buf frame : List ℝ) : List ℝ := buf.drop fs ++ frame

/-- `IPU.calculate_note` as a state transformer: shift the window, run the
pitch estimator and store its outputs; below the sensitivity threshold set
`note_name` to the silence sentinel and return, otherwise store the
rounded note number and its name. -/
def calculate_note (sensitivity : ℝ) (st : IPUState) (frame : List ℝ) :
    IPUState :=
  if (get_dominant_pitch (push_frame DEFAULT_FRAME_SIZE st.buf frame)).2
      < sensitivity then
    { buf := push_frame DEFAULT_FRAME_SIZE st.buf frame,
      dominant_frequency :=
        (get_dominant_pitch (push_frame DEFAULT_FRAME_SIZE st.buf frame)).1,
      amplitude :=
        (get_dominant_pitch (push_frame DEFAULT_FRAME_SIZE st.buf frame)).2,
      note := st.note, note_name := none }
  else
    { buf := push_frame DEFAULT_FRAME_SIZE st.buf frame,
      dominant_frequency :=
        (get_dominant_pitch (push_frame DEFAULT_FRAME_SIZE st.buf frame)).1,
      amplitude :=
        (get_dominant_pitch (push_frame DEFAULT_FRAME_SIZE st.buf frame)).2,
      note := pyround (freq_to_number
        (get_dominant_pitch (push_frame DEFAULT_FRAME_SIZE st.buf frame)).1),
      note_name := some (note_to_note_name (pyround (freq_to_number
        (get_dominant_pitch
          (push_frame DEFAULT_FRAME_SIZE st.buf frame)).1))) }

end

theorem dft_eq_response_spec (f : ℝ) (samples : List ℝ) :
    discrete_fourier_transform f samples = response_spec f samples := by
  unfold discrete_fourier_transform response_spec
  have hx : (∑ i in Finset.range samples.length,
        samples.getD i 0 * Real.cos (f * fourier_array i))
      = ∑ i in Finset.range samples.length,
        samples.getD i 0 * Real.cos (fourier_array i * f) :=
    Finset.sum_congr rfl (fun i _ => by rw [mul_comm f (fourier_array i)])
  have hy : (∑ i in Finset.range samples.length,
        samples.getD i 0 * Real.sin (f * fourier_array i))
      = ∑ i in Finset.range samples.length,
        samples.getD i 0 * Real.sin (fourier_array i * f) :=
    Finset.sum_congr rfl (fun i _ => by rw [mul_comm f (fourier_array i)])
  rw [hx, hy, pow_two, pow_two]

theorem argmax_step_spec (l : List ℝ) : ∀ (n b : Nat),
    ((List.range n).foldl (argmax_step l) b = b ∨
      (List.range n).foldl (argmax_step l) b < n) ∧
    l.getD b 0 ≤ l.getD ((List.range n).foldl (argmax_step l) b) 0 ∧
    ∀ j, j < n → l.getD j 0 ≤ l.getD ((List.range n).foldl (argmax_step l) b) 0 := by
  intro n
  induction n with
  | zero => intro b; simp
  | succ n ih =>
    intro b
    rw [List.range_succ, List.foldl_append, List.foldl_cons, List.foldl_nil]
    obtain ⟨h1, h2, h3⟩ := ih b
    have hunf : argmax_step l ((List.range n).foldl (argmax_step l) b) n
        = if l.getD ((List.range n).foldl (argmax_step l) b) 0 < l.getD n 0
          then n else (List.range n).foldl (argmax_step l) b := rfl
    rw [hunf]
    by_cases hlt : l.getD ((List.range n).foldl (argmax_step l) b) 0 < l.getD n 0
    · rw [if_pos hlt]
      refine ⟨Or.inr (Nat.lt_succ_self n), le_trans h2 (le_of_lt hlt), ?_⟩
      intro j hj
      rcases Nat.lt_succ_iff_lt_or_eq.mp hj with hj2 | rfl
      · exact le_trans (h3 j hj2) (le_of_lt hlt)
      · exact le_refl _
    · rw [if_neg hlt]
      refine ⟨?_, h2, ?_⟩
      · rcases h1 with hb | hlt2
        · exact Or.inl hb
        · exact Or.inr (by omega)
      · intro j hj
        rcases Nat.lt_succ_iff_lt_or_eq.mp hj with hj2 | rfl
        · exact h3 j hj2
        · exact not_lt.mp hlt

theorem argmaxList_spec (l : List ℝ) (hne : l ≠ []) :
    argmaxList l < l.length ∧
    ∀ j, j < l.length → l.getD j 0 ≤ l.getD (argmaxList l) 0 := by
  obtain ⟨h1, h2, h3⟩ := argmax_step_spec l l.length 0
  have hlen : 0 < l.length := List.length_pos.mpr hne
  refine ⟨?_, h3⟩
  unfold argmaxList
  rcases h1 with h0 | h
  · rw [h0]; exact hlen
  · exact h

theorem piano_length : piano_frequencies.length = 88 := by
  rw [piano_frequencies, List.length_map, List.length_range]

theorem piano_getD (j : Nat) (hj : j < 88) :
    piano_frequencies.getD j 0 = number_to_freq ((j : ℝ) + 1) := by
  rw [piano_frequencies, List.getD_eq_getElem?_getD, List.getElem?_map,
    List.getElem?_range hj]
  rfl

theorem response_getD (samples : List ℝ) (j : Nat) (hj : j < 88) :
    (piano_frequencies.map
        (fun f => discrete_fourier_transform f samples)).getD j 0
      = discrete_fourier_transform (piano_frequencies.getD j 0) samples := by
  have hj' : j < piano_frequencies.length := by rw [piano_length]; exact hj
  rw [List.getD_eq_getElem?_getD, List.getElem?_map,
    List.getElem?_eq_getElem hj']
  rw [List.getD_eq_getElem?_getD, List.getElem?_eq_getElem hj']
  rfl

theorem get_dominant_pitch_spec (samples : List ℝ) :
    ∃ k, k < 88 ∧
      get_dominant_pitch samples
        = (piano_frequencies.getD k 0,
           discrete_fourier_transform (piano_frequencies.getD k 0) samples) ∧
      ∀ j, j < 88 →
        discrete_fourier_transform (piano_frequencies.getD j 0) samples ≤
          discrete_fourier_transform (piano_frequencies.getD k 0) samples := by
  have hrlen : (piano_frequencies.map
      (fun f => discrete_fourier_transform f samples)).length = 88 := by
    rw [List.length_map, piano_length]
  have hne : piano_frequencies.map
      (fun f => discrete_fourier_transform f samples) ≠ [] := by
    intro h
    rw [h] at hrlen
    simp at hrlen
  obtain ⟨hk, hmax⟩ := argmaxList_spec _ hne
  rw [hrlen] at hk
  refine ⟨argmaxList (piano_frequencies.map
      (fun f => discrete_fourier_transform f samples)), hk, ?_, ?_⟩
  · show (piano_frequencies.getD _ 0,
        (piano_frequencies.map
          (fun f => discrete_fourier_transform f samples)).getD _ 0) = _
    rw [response_getD samples _ hk]
  · intro j hj
    have hmj := hmax j (by rw [hrlen]; exact hj)
    rw [response_getD samples j hj, response_getD samples _ hk] at hmj
    exact hmj

theorem getD_replicate_zero (n i : Nat) :
    (List.replicate n (0 : ℝ)).getD i 0 = 0 := by
  rw [List.getD_eq_getElem?_getD]
  by_cases hi : i < n
  · rw [List.getElem?_eq_getElem (by simpa using hi)]
    simp
  · rw [List.getElem?_eq_none (by simpa using Nat.le_of_not_lt hi)]
    rfl

theorem dft_zero_window (f : ℝ) (n : Nat) :
    discrete_fourier_transform f (List.replicate n 0) = 0 := by
  unfold discrete_fourier_transform
  have hx : (∑ i in Finset.range (List.replicate n (0:ℝ)).length,
      (List.replicate n (0:ℝ)).getD i 0 * Real.cos (f * fourier_array i)) = 0 :=
    Finset.sum_eq_zero (fun i _ => by rw [getD_replicate_zero]; ring)
  have hy : (∑ i in Finset.range (List.replicate n (0:ℝ)).length,
      (List.replicate n (0:ℝ)).getD i 0 * Real.sin (f * fourier_array i)) = 0 :=
    Finset.sum_eq_zero (fun i _ => by rw [getD_replicate_zero]; ring)
  rw [hx, hy]
  norm_num

theorem foldl_congr_fixed (g : Nat → Nat → Nat) (hg : ∀ b i, g b i = b) :
    ∀ (xs : List Nat) (b : Nat), xs.foldl g b = b := by
  intro xs
  induction xs with
  | nil => intro b; rfl
  | cons a rest ih =>
    intro b
    rw [List.foldl_cons, hg b a, ih b]

theorem argmaxList_zero (l : List ℝ) (hz : ∀ j, l.getD j 0 = 0) :
    argmaxList l = 0 := by
  unfold argmaxList
  apply foldl_congr_fixed
  intro b i
  unfold argmax_step
  rw [hz b, hz i]
  simp

theorem get_dominant_pitch_zero (n : Nat) :
    get_dominant_pitch (List.replicate n 0) = (number_to_freq 1, 0) := by
  have hz : ∀ j, (piano_frequencies.map
      (fun f => discrete_fourier_transform f (List.replicate n 0))).getD j 0
        = 0 := by
    intro j
    by_cases hj : j < 88
    · rw [response_getD _ j hj, dft_zero_window]
    · rw [List.getD_eq_getElem?_getD, List.getElem?_eq_none]
      · rfl
      · rw [List.length_map, piano_length]
        omega
  have hargmax : argmaxList (piano_frequencies.map
      (fun f => discrete_fourier_transform f (List.replicate n 0))) = 0 :=
    argmaxList_zero _ hz
  show (piano_frequencies.getD _ 0,
      (piano_frequencies.map
        (fun f => discrete_fourier_transform f (List.replicate n 0))).getD _ 0)
    = _
  rw [hargmax, hz 0, piano_getD 0 (by norm_num)]
  norm_num

theorem freq_to_number_roundtrip (x : ℝ) :
    freq_to_number (number_to_freq x) = x := by
  unfold freq_to_number number_to_freq
  rw [mul_div_cancel_left₀ _ (by norm_num : (440:ℝ) ≠ 0)]
  rw [Real.logb_rpow (by norm_num) (by norm_num)]
  ring

theorem pyround_intCast (n : ℤ) : pyround ((n : ℝ)) = n := by
  unfold pyround
  rw [if_neg, round_intCast]
  rw [Int.fract_intCast]
  norm_num

theorem number_to_freq_A4 : number_to_freq 49 = 440 := by
  unfold number_to_freq
  rw [show ((49:ℝ) - 49) / 12 = 0 by norm_num, Real.rpow_zero]
  norm_num

theorem calculate_note_fields (sens : ℝ) (st : IPUState) (frame : List ℝ) :
    (calculate_note sens st frame).amplitude
        = (get_dominant_pitch (push_frame DEFAULT_FRAME_SIZE st.buf frame)).2 ∧
    (calculate_note sens st frame).dominant_frequency
        = (get_dominant_pitch (push_frame DEFAULT_FRAME_SIZE st.buf frame)).1 ∧
    (calculate_note sens st frame).buf
        = push_frame DEFAULT_FRAME_SIZE st.buf frame := by
  unfold calculate_note
  split <;> exact ⟨rfl, rfl, rfl⟩

theorem calculate_note_silence (sens : ℝ) (st : IPUState) (frame : List ℝ)
    (h : (get_dominant_pitch (push_frame DEFAULT_FRAME_SIZE st.buf frame)).2
        < sens) :
    calculate_note sens st frame =
      { buf := push_frame DEFAULT_FRAME_SIZE st.buf frame,
        dominant_frequency :=
          (get_dominant_pitch (push_frame DEFAULT_FRAME_SIZE st.buf frame)).1,
        amplitude :=
          (get_dominant_pitch (push_frame DEFAULT_FRAME_SIZE st.buf frame)).2,
        note := st.note, note_name := none } := by
  unfold calculate_note
  rw [if_pos h]

theorem calculate_note_voiced (sens : ℝ) (st : IPUState) (frame : List ℝ)
    (h : ¬ (get_dominant_pitch (push_frame DEFAULT_FRAME_SIZE st.buf frame)).2
        < sens) :
    calculate_note sens st frame =
      { buf := push_frame DEFAULT_FRAME_SIZE st.buf frame,
        dominant_frequency :=
          (get_dominant_pitch (push_frame DEFAULT_FRAME_SIZE st.buf frame)).1,
        amplitude :=
          (get_dominant_pitch (push_frame DEFAULT_FRAME_SIZE st.buf frame)).2,
        note := pyround (freq_to_number
          (get_dominant_pitch (push_frame DEFAULT_FRAME_SIZE st.buf frame)).1),
        note_name := some (note_to_note_name (pyround (freq_to_number
          (get_dominant_pitch
            (push_frame DEFAULT_FRAME_SIZE st.buf frame)).1))) } := by
  unfold calculate_note
  rw [if_neg h]

theorem note_to_note_name_floor (n : ℤ) (h1 : 1 ≤ n) :
    note_to_note_name n
      = NOTE_NAMES.getD ((n - 4).emod 12).toNat ("")
          ++ toString ⌊((n : ℝ) + 8) / 12⌋ := by
  unfold note_to_note_name pyint
  rw [if_pos]
  apply div_nonneg _ (by norm_num)
  have hn : (1:ℝ) ≤ (n:ℝ) := by exact_mod_cast h1
  linarith

/-- Claim C6 (confirmed): the per-frequency response of
`discrete_fourier_transform` equals the specified
`sqrt(x² + y²) / window_size` with the phase-basis sums; on every window
`get_dominant_pitch` returns a candidate frequency whose response is
maximal among the 88 candidates, together with that response as the
amplitude; and it is total, returning the first candidate with response 0
on an all-zero window. -/
theorem C6_pitch_estimator :
    (∀ (f : ℝ) (samples : List ℝ),
        discrete_fourier_transform f samples = response_spec f samples) ∧
    (∀ samples : List ℝ, ∃ k, k < 88 ∧
        get_dominant_pitch samples
          = (piano_frequencies.getD k 0,
             discrete_fourier_transform (piano_frequencies.getD k 0) samples) ∧
        ∀ j, j < 88 →
          discrete_fourier_transform (piano_frequencies.getD j 0) samples ≤
            discrete_fourier_transform (piano_frequencies.getD k 0) samples) ∧
    get_dominant_pitch (List.replicate 800 0) = (number_to_freq 1, 0) :=
  ⟨dft_eq_response_spec, get_dominant_pitch_spec, get_dominant_pitch_zero 800⟩

/-- Claim C8 (confirmed): the frequency/semitone conversion round-trips on
the 88 piano keys under Python's rounding, and key 49 maps to exactly
440 Hz. -/
theorem C8_roundtrip :
    (∀ n : ℤ, 1 ≤ n → n ≤ 88 →
        pyround (freq_to_number (number_to_freq ((n : ℝ)))) = n) ∧
    number_to_freq 49 = 440 :=
  ⟨fun n _ _ => by rw [freq_to_number_roundtrip, pyround_intCast],
   number_to_freq_A4⟩

/-- Witness for C8: the A4 reference key, number 49. -/
theorem C8_witness :
    (1 : ℤ) ≤ 49 ∧ (49 : ℤ) ≤ 88 ∧
    pyround (freq_to_number (number_to_freq (((49 : ℤ) : ℝ)))) = 49 :=
  ⟨by norm_num, by norm_num, C8_roundtrip.1 49 (by norm_num) (by norm_num)⟩

/-- Claim C9 (confirmed): the audio window starts as all-zero samples of
length `frame_size * frames_per_window`, every push of a `frame_size`
frame drops the oldest `frame_size` samples and appends the frame at the
tail, and after any number of pushes the window length is still exactly
`frame_size * frames_per_window`. -/
theorem C9_sampler (fs fpw : Nat) (frames : List (List ℝ))
    (hfpw : 1 ≤ fpw) (hframes : ∀ f ∈ frames, f.length = fs) :
    init_buf fs fpw = List.replicate (fs * fpw) 0 ∧
    (frames.foldl (fun b f => push_frame fs b f) (init_buf fs fpw)).length
        = fs * fpw ∧
    (∀ buf frame : List ℝ, buf.length = fs * fpw → frame.length = fs →
       push_frame fs buf frame = buf.drop fs ++ frame ∧
       (push_frame fs buf frame).length = fs * fpw) := by
  have hstep : ∀ (buf frame : List ℝ),
      buf.length = fs * fpw → frame.length = fs →
      (push_frame fs buf frame).length = fs * fpw := by
    intro buf frame hb hf
    unfold push_frame
    rw [List.length_append, List.length_drop, hb, hf]
    have hle : fs ≤ fs * fpw := Nat.le_mul_of_pos_right fs (by omega)
    omega
  refine ⟨rfl, ?_, fun buf frame hb hf => ⟨rfl, hstep buf frame hb hf⟩⟩
  have hgen : ∀ (fl : List (List ℝ)) (acc : List ℝ), acc.length = fs * fpw →
      (∀ f ∈ fl, f.length = fs) →
      (fl.foldl (fun b f => push_frame fs b f) acc).length = fs * fpw := by
    intro fl
    induction fl with
    | nil => intro acc ha _; simpa using ha
    | cons g gs ih =>
      intro acc ha hf
      rw [List.foldl_cons]
      exact ih _ (hstep acc g ha (hf g (List.mem_cons_self g gs)))
        (fun f hfm => hf f (List.mem_cons.mpr (Or.inr hfm)))
  exact hgen frames (init_buf fs fpw) (by simp [init_buf]) hframes

/-- Witness for C9: the source's sizes, 800-sample frames and one frame
per window, pushing one all-zero frame. -/
theorem C9_witness :
    (1 : Nat) ≤ 1 ∧
    (∀ f ∈ [List.replicate 800 (0 : ℝ)], f.length = 800) ∧
    (init_buf 800 1 = List.replicate (800 * 1) 0 ∧
     (([List.replicate 800 (0 : ℝ)]).foldl (fun b f => push_frame 800 b f)
        (init_buf 800 1)).length = 800 * 1 ∧
     (∀ buf frame : List ℝ, buf.length = 800 * 1 → frame.length = 800 →
        push_frame 800 buf frame = buf.drop 800 ++ frame ∧
        (push_frame 800 buf frame).length = 800 * 1)) :=
  by
  have hfr : ∀ f ∈ [List.replicate 800 (0 : ℝ)], f.length = 800 := by
    intro f hf
    rw [List.mem_singleton] at hf
    rw [hf, List.length_replicate]
  exact ⟨le_refl 1, hfr,
    C9_sampler 800 1 ([List.replicate 800 (0 : ℝ)]) (le_refl 1) hfr⟩

/-- Claim C7 (confirmed): whenever the computed amplitude is strictly
below the sensitivity threshold, `calculate_note` stores the silence
sentinel as the note name; otherwise the stored note number is Python's
`round` of `12·log2(f/440) + 49` at the dominant frequency — an integer
`n` in `[1, 88]` — and the stored name is
`NOTE_NAMES[(n − 4) mod 12]` concatenated with `⌊(n + 8) / 12⌋`. -/
theorem C7_note_quantizer (st : IPUState) (frame : List ℝ) (sens : ℝ) :
    ((calculate_note sens st frame).amplitude < sens →
        (calculate_note sens st frame).note_name = none) ∧
    (¬ (calculate_note sens st frame).amplitude < sens →
        ∃ n : ℤ, 1 ≤ n ∧ n ≤ 88 ∧
          (calculate_note sens st frame).note
              = pyround (freq_to_number
                  ((calculate_note sens st frame).dominant_frequency)) ∧
          (calculate_note sens st frame).note = n ∧
          (calculate_note sens st frame).note_name
              = some (NOTE_NAMES.getD ((n - 4).emod 12).toNat ("")
                  ++ toString ⌊((n : ℝ) + 8) / 12⌋)) := by
  by_cases h : (get_dominant_pitch
      (push_frame DEFAULT_FRAME_SIZE st.buf frame)).2 < sens
  · rw [calculate_note_silence sens st frame h]
    exact ⟨fun _ => rfl, fun hcon => absurd h hcon⟩
  · rw [calculate_note_voiced sens st frame h]
    refine ⟨fun hcon => absurd hcon h, fun _ => ?_⟩
    obtain ⟨k, hk, heq, hmax⟩ :=
      get_dominant_pitch_spec (push_frame DEFAULT_FRAME_SIZE st.buf frame)
    have hp1 : (get_dominant_pitch
        (push_frame DEFAULT_FRAME_SIZE st.buf frame)).1
          = number_to_freq ((k : ℝ) + 1) := by
      rw [heq]
      exact piano_getD k hk
    have hcast : ((k : ℝ) + 1) = (((k : ℤ) + 1 : ℤ) : ℝ) := by
      push_cast
      ring
    have hnote : pyround (freq_to_number
        (get_dominant_pitch (push_frame DEFAULT_FRAME_SIZE st.buf frame)).1)
          = (k : ℤ) + 1 := by
      rw [hp1, freq_to_number_roundtrip, hcast, pyround_intCast]
    refine ⟨(k : ℤ) + 1, by omega, by omega, rfl, hnote, ?_⟩
    show some (note_to_note_name (pyround (freq_to_number
        (get_dominant_pitch
          (push_frame DEFAULT_FRAME_SIZE st.buf frame)).1))) = _
    rw [hnote, note_to_note_name_floor ((k : ℤ) + 1) (by omega)]

/-- A concrete `IPU` state used in the concrete silence-tick runs: an
all-zero window with a previously detected note 49 / "A4" and a stale
amplitude of 500. -/
def zero_state : IPUState :=
  { buf := List.replicate 800 0, dominant_frequency := 440,
    amplitude := 500, note := 49, note_name := some ("A4") }

theorem zero_state_push :
    push_frame DEFAULT_FRAME_SIZE zero_state.buf (List.replicate 800 0)
      = List.replicate 800 0 := by
  show push_frame 800 (List.replicate 800 0) (List.replicate 800 0) = _
  unfold push_frame
  rw [List.drop_replicate]
  rw [show (800 - 800 : Nat) = 0 from rfl, List.replicate_zero,
    List.nil_append]

theorem calc_zero_amplitude (sens : ℝ) :
    (calculate_note sens zero_state (List.replicate 800 0)).amplitude = 0 := by
  obtain ⟨hamp, -, -⟩ :=
    calculate_note_fields sens zero_state (List.replicate 800 0)
  rw [hamp, zero_state_push, get_dominant_pitch_zero]

/-- Witness for C7: on an all-zero window with sensitivity 200 the
amplitude is 0, below threshold, and the silence sentinel is stored. -/
theorem C7_witness :
    (calculate_note 200 zero_state (List.replicate 800 0)).amplitude < 200 ∧
    (calculate_note 200 zero_state (List.replicate 800 0)).note_name
        = none := by
  have hamp : (calculate_note 200 zero_state
      (List.replicate 800 0)).amplitude < 200 := by
    rw [calc_zero_amplitude]
    norm_num
  exact ⟨hamp,
    (C7_note_quantizer zero_state (List.replicate 800 0) 200).1 hamp⟩

/-- Counterexample for C10 as stated: on a silence tick of `calculate_note`
(an all-zero window against sensitivity 200, so `note_name` is set to the
sentinel), the `amplitude` field also changes — from the stale 500 to 0 —
so `note_name` is not the only field changed. -/
theorem C10_counterexample :
    (calculate_note 200 zero_state (List.replicate 800 0)).amplitude < 200 ∧
    (calculate_note 200 zero_state (List.replicate 800 0)).note_name = none ∧
    (calculate_note 200 zero_state (List.replicate 800 0)).amplitude
        ≠ zero_state.amplitude := by
  have hz : (calculate_note 200 zero_state
      (List.replicate 800 0)).amplitude = 0 := calc_zero_amplitude 200
  have hsil : (get_dominant_pitch (push_frame DEFAULT_FRAME_SIZE
      zero_state.buf (List.replicate 800 0))).2 < 200 := by
    rw [zero_state_push, get_dominant_pitch_zero]
    norm_num
  refine ⟨by rw [hz]; norm_num, ?_, ?_⟩
  · rw [calculate_note_silence 200 zero_state (List.replicate 800 0) hsil]
  · rw [hz]
    show (0 : ℝ) ≠ 500
    norm_num

/-- Claim C10 (corrected): on a silence tick `calculate_note` stores the
silence sentinel in `note_name` and leaves `note` unchanged, so
`get_note()` keeps reporting the last above-threshold note number; however
the window, `dominant_frequency` and `amplitude` fields are updated
unconditionally before the threshold test, so `note_name` is not the only
field changed. -/
theorem C10_amended_silence (st : IPUState) (frame : List ℝ) (sens : ℝ)
    (h : (calculate_note sens st frame).amplitude < sens) :
    (calculate_note sens st frame).note = st.note ∧
    (calculate_note sens st frame).note_name = none := by
  obtain ⟨hamp, -, -⟩ := calculate_note_fields sens st frame
  rw [hamp] at h
  rw [calculate_note_silence sens st frame h]
  exact ⟨rfl, rfl⟩

/-- Witness for C10: the concrete silence tick keeps `note = 49` while
storing the sentinel name. -/
theorem C10_witness :
    (calculate_note 200 zero_state (List.replicate 800 0)).amplitude < 200 ∧
    (calculate_note 200 zero_state (List.replicate 800 0)).note
        = zero_state.note ∧
    (calculate_note 200 zero_state (List.replicate 800 0)).note_name
        = none := by
  have hamp : (calculate_note 200 zero_state
      (List.replicate 800 0)).amplitude < 200 := by
    rw [calc_zero_amplitude]
    norm_num
  obtain ⟨h1, h2⟩ :=
    C10_amended_silence zero_state (List.replicate 800 0) 200 hamp
  exact ⟨hamp, h1, h2⟩
